import Mathlib

/-!
Shallow embedding of the job-control shell (`shell.c`) for verification of its
natural-language specification.  Machine integers are modelled as `Nat`/`Int`;
the raw input buffer is a `List Nat` of byte values; the OS-dependent inputs
(bytes delivered by `read`, results of `waitpid`) are explicit parameters.
-/

namespace Shell

/-- `#define EFFECTIVE_BUFFER_SIZE 512` -/
def EFFECTIVE_BUFFER_SIZE : Nat := 512

/-- `#define BUFFER_SIZE 513` -/
def BUFFER_SIZE : Nat := 513

/-- `static const char RUN_IN_BG = '&';` (byte value 38) -/
def RUN_IN_BG : Nat := 38

/-- `static const char REDIR_OUT = '>';` (byte value 62) -/
def REDIR_OUT : Nat := 62

/-- `static const char REDIR_IN = '<';` (byte value 60) -/
def REDIR_IN : Nat := 60

/-- The `ECHILD` errno value (3 on the reference platform is 10 on Linux;
the exact number is irrelevant, only its distinctness). -/
def ECHILD : Nat := 10

/-- `static const char *CMD_EXIT = "exit";` rendered as bytes by `str`. -/
def CMD_EXIT : String := "exit"

/-- `static const char *PROMPT = "$ ";` -/
def PROMPT : String := "$ "

/-- Byte string of a Lean string literal (ASCII). -/
def str (s : String) : List Nat := s.toList.map Char.toNat

/-- C `isspace` on the ASCII range: space, \t, \n, \v, \f, \r. -/
def c_isspace (c : Nat) : Bool := c == 32 || (9 ≤ c && c ≤ 13)

/-- A byte that ends the current token: whitespace or the NUL terminator
(the first branch of the scan loop in `command_parse`). -/
def isEnd (c : Nat) : Bool := c_isspace c || c == 0

/-- One of the three control characters `&`, `>`, `<`
(the second branch of the scan loop in `command_parse`). -/
def isCtrl (c : Nat) : Bool := c == RUN_IN_BG || c == REDIR_OUT || c == REDIR_IN

/-- A byte that continues (or starts) an ordinary token. -/
def notDelim (c : Nat) : Bool := !(isEnd c || isCtrl c)

/-- `process_t`: one tracked background job (`next` pointer becomes list structure). -/
structure process_t where
  running : Bool
  pid : Int
deriving Repr, DecidableEq

/-- The shell's shared mutable state: `fg_pid`, the `bg_head` job list and the
`interrupt` flag. -/
structure ShellState where
  fg_pid : Int
  bg_head : List process_t
  interrupt : Bool
deriving Repr, DecidableEq

/-- `command_t`: the result of parsing one line.  `args` is the argument
sequence (the NULL terminator of the C array becomes the end of the list);
`out`/`in_` are the redirect targets. -/
structure command_t where
  run_in_bg : Bool
  args : List (List Nat)
  out : Option (List Nat)
  in_ : Option (List Nat)
deriving Repr, DecidableEq

/-- Where the token currently being scanned was stored.  In C this is implicit
in which pointer (`args[pos-1]`, `out`, `in`) points at the token's first byte;
the scan extends that token in place while `ignore` is set. -/
inductive Dest where
  | args
  | out
  | in_
deriving Repr, DecidableEq

/-- The loop state of `command_parse`'s single scan over the buffer. -/
structure ParseState where
  run_in_bg : Bool
  args : List (List Nat)
  out : Option (List Nat)
  in_ : Option (List Nat)
  token : Nat
  ignore : Bool
  dest : Dest
deriving Repr, DecidableEq

/-- Append a byte to the last token of the argument list (the in-place
extension of the most recently stored `args` pointer). -/
def appendLast (l : List (List Nat)) (c : Nat) : List (List Nat) :=
  match l with
  | [] => []
  | [t] => [t ++ [c]]
  | t :: ts => t :: appendLast ts c

/-- One iteration of the `for (int i = 0; i < EFFECTIVE_BUFFER_SIZE; i++)`
scan of `command_parse`, acting on byte `c`. -/
def parse_step (st : ParseState) (c : Nat) : ParseState :=
  if isEnd c then
    { st with ignore := false }
  else if isCtrl c then
    { st with run_in_bg := if c == RUN_IN_BG then true else st.run_in_bg,
              token := c, ignore := false }
  else if st.ignore then
    match st.dest with
    | Dest.args => { st with args := appendLast st.args c }
    | Dest.out => { st with out := Option.map (fun t => t ++ [c]) st.out }
    | Dest.in_ => { st with in_ := Option.map (fun t => t ++ [c]) st.in_ }
  else
    if st.token == REDIR_IN then
      { st with in_ := some [c], ignore := true, dest := Dest.in_ }
    else if st.token == REDIR_OUT then
      { st with out := some [c], ignore := true, dest := Dest.out }
    else
      { st with args := st.args ++ [[c]], ignore := true, dest := Dest.args }

/-- The initial scan state of `command_parse` (`token = '\0'`, `ignore = 0`,
no arguments, no redirect targets, background flag cleared). -/
def parse_init : ParseState :=
  { run_in_bg := false, args := [], out := none, in_ := none,
    token := 0, ignore := false, dest := Dest.args }

/-- `command_parse`: scan the first `EFFECTIVE_BUFFER_SIZE` bytes of the
buffer and collect the resulting `command_t`.  Allocation of the argument
array is modelled as always succeeding. -/
def command_parse (buffer : List Nat) : command_t :=
  let st := (buffer.take EFFECTIVE_BUFFER_SIZE).foldl parse_step parse_init
  { run_in_bg := st.run_in_bg, args := st.args, out := st.out, in_ := st.in_ }

/-- The contents of the 513-byte `buffer` array after `memset` to zero and
writing `content` at its start. -/
def mkbuf (content : List Nat) : List Nat :=
  (content ++ List.replicate (BUFFER_SIZE - content.length) 0).take BUFFER_SIZE

/-! ### Line Source (`input_read`) -/

/-- The outcome of the `read(STDIN_FILENO, ...)` call: an error (`num_bytes < 0`)
or the list of delivered bytes (`num_bytes = bytes.length`). -/
inductive ReadResult where
  | err
  | ok (bytes : List Nat)
deriving Repr, DecidableEq

/-- The observable result of one `input_read` call: its return value, the
final contents of the 513-byte `buffer`, the bytes left unconsumed on standard
input after the call, and the text printed (diagnostics, echoes). -/
structure InputResult where
  ret : Int
  buffer : List Nat
  stream : List Nat
  output : List String
deriving Repr, DecidableEq

/-- The `fprintf(stderr, "Input is too long. ...")` diagnostic. -/
def too_long_msg : String :=
  s!"Input is too long. Maximum length is {EFFECTIVE_BUFFER_SIZE}\n"

/-- `while (getchar() != '\n');` — discard bytes of standard input up to and
including the first newline.  (If the stream holds no newline the C loop spins
on `EOF`; the model consumes the whole stream, and theorems about the drain
assume a newline is present.) -/
def drain_line (stream : List Nat) : List Nat :=
  (stream.dropWhile (fun c => c != 10)).drop 1

/-- `input_read`: clear the buffer, read up to `BUFFER_SIZE` bytes and
post-process them exactly as the C function does.  `stream` holds the bytes
standard input would deliver to the subsequent `getchar` calls of the
oversized-line drain. -/
def input_read (r : ReadResult) (stream : List Nat) : InputResult :=
  match r with
  | ReadResult.err =>
      { ret := -1, buffer := mkbuf [], stream := stream, output := ["read"] }
  | ReadResult.ok bytes =>
      if EFFECTIVE_BUFFER_SIZE < bytes.length then
        { ret := -1, buffer := mkbuf bytes,
          stream := if bytes.getLast? == some 10 then stream else drain_line stream,
          output := [too_long_msg] }
      else if bytes.length == 0 then
        { ret := 0, buffer := mkbuf (str CMD_EXIT), stream := stream,
          output := [CMD_EXIT ++ "\n"] }
      else if bytes.getLast? == some 10 then
        { ret := 0, buffer := mkbuf bytes.dropLast, stream := stream, output := [] }
      else
        { ret := 0, buffer := mkbuf bytes, stream := stream, output := ["\n"] }

/-! ### Job Registry, exit built-in, Reaper, prompt -/

/-- The pids `command_exit_handler`'s loop sends `SIGKILL` to, in list order
(`if (curr_process->running) kill(curr_process->pid, SIGKILL);`). -/
def exit_kills : List process_t → List Int
  | [] => []
  | p :: rest => if p.running then p.pid :: exit_kills rest else exit_kills rest

/-- `command_exit_handler`: free the whole job list (`bg_head = NULL`), set
`interrupt`, and report which pids were signalled. -/
def command_exit_handler (s : ShellState) : ShellState × List Int :=
  ({ s with bg_head := [], interrupt := true }, exit_kills s.bg_head)

/-- The search loop of the `SIGCHLD` branch of `sig_handler`: set `running = 0`
on the first job whose pid matches and stop (`break`); jobs are never removed. -/
def mark_terminated : List process_t → Int → List process_t
  | [], _ => []
  | p :: rest, c =>
      if p.pid == c then { p with running := false } :: rest
      else p :: mark_terminated rest c

/-- Handling of a single pid returned by `waitpid(-1, NULL, WNOHANG)` inside
`sig_handler`'s drain loop. -/
def sig_chld_one (s : ShellState) (c : Int) : ShellState :=
  if c == s.fg_pid then { s with fg_pid := -1 }
  else { s with bg_head := mark_terminated s.bg_head c }

/-- The `SIGCHLD` branch of `sig_handler`: `reaped` is the sequence of pids the
successive `waitpid(-1, NULL, WNOHANG)` calls return before reporting no more
terminated children; every one of them is processed in one activation. -/
def sig_handler_chld (s : ShellState) (reaped : List Int) : ShellState :=
  reaped.foldl sig_chld_one s

/-- `printf("[%d] Finished\n", pid)` -/
def finished_msg (pid : Int) : String := s!"[{pid}] Finished\n"

/-- The notification loop of `prompt_show`: returns the job list after the
removals together with the notifications printed, in print order. -/
def prompt_scan : List process_t → List process_t × List String
  | [] => ([], [])
  | p :: rest =>
      let r := prompt_scan rest
      if p.running then (p :: r.1, r.2) else (r.1, finished_msg p.pid :: r.2)

/-- `prompt_show`: print the finished-notifications, remove those jobs, then
print the prompt. -/
def prompt_show (l : List process_t) : List process_t × List String :=
  ((prompt_scan l).1, (prompt_scan l).2 ++ [PROMPT])

/-! ### Process Launcher (`command_fork`, parent, foreground branch) -/

/-- The outcome of one blocking `waitpid(c_pid, &status, 0)` call: success
(with the `WIFEXITED`/`WIFSIGNALED` predicates of the reported status) or
failure with an `errno` value. -/
inductive WaitOutcome where
  | ok (exited signaled : Bool)
  | err (errno : Nat)
deriving Repr, DecidableEq

/-- The `do { ... } while (!(WIFEXITED(status) || WIFSIGNALED(status)));` loop
of `command_fork`'s parent-side foreground branch, followed by the
`fg_pid = -1` that runs after the loop.  `waits` is the sequence of outcomes
the successive `waitpid` calls produce; `none` means the given outcomes never
let the loop finish (it would still be blocked).  Returns the function's return
value, the state after the branch, and the diagnostics printed (`perror`
modelled as emitting its argument string). -/
def fg_wait_loop (s : ShellState) : List WaitOutcome → Option (Int × ShellState × List String)
  | [] => none
  | WaitOutcome.err e :: _ =>
      if e == ECHILD then some (0, { s with fg_pid := -1 }, [])
      else some (-1, { s with fg_pid := -1 }, ["waitpid"])
  | WaitOutcome.ok exited signaled :: rest =>
      if exited || signaled then some (0, { s with fg_pid := -1 }, [])
      else fg_wait_loop s rest

/-- The parent's foreground path of `command_fork` after a successful `fork`
returning child pid `c_pid`: record the foreground token, then run the wait
loop. -/
def command_fork_fg (c_pid : Int) (waits : List WaitOutcome) (s : ShellState) :
    Option (Int × ShellState × List String) :=
  fg_wait_loop { s with fg_pid := c_pid } waits

/-! ### `command_execute` and one shell cycle -/

/-- Which action `command_execute` took on a parsed line: `noop` when no
argument was parsed (no process created, no error), `exited` when the built-in
`exit` ran, `forked c` when `command_fork` was invoked on command `c` (the
launch itself is modelled by `command_fork_fg` and the registry insertion,
which depend on OS inputs). -/
inductive ExecEffect where
  | skipped
  | noop
  | exited
  | forked (c : command_t)
deriving Repr, DecidableEq

/-- `command_execute`: parse the buffer and dispatch.  Parse-allocation
failure is not modelled (allocation always succeeds), so the function returns
0 in every modelled case, as the C code does. -/
def command_execute (buffer : List Nat) (s : ShellState) : Int × ShellState × ExecEffect :=
  let cmd := command_parse buffer
  match cmd.args with
  | [] => (0, s, ExecEffect.noop)
  | name :: _ =>
      if name == str CMD_EXIT then (0, (command_exit_handler s).1, ExecEffect.exited)
      else (0, s, ExecEffect.forked cmd)

/-- One input-to-execution cycle of the handshake: `input_handler` sets
`new_command` only when `input_read` returns 0, and only then does
`commands_handler` run `command_execute` on the shared buffer. -/
def shell_cycle (r : ReadResult) (stream : List Nat) (s : ShellState) :
    ShellState × ExecEffect :=
  let ir := input_read r stream
  if ir.ret == 0 then
    let res := command_execute ir.buffer s
    (res.2.1, res.2.2)
  else (s, ExecEffect.skipped)

/-- Loop condition of both `input_handler` and `commands_handler`:
`while (! interrupt)`. -/
def loop_continues (s : ShellState) : Bool := !s.interrupt

/-! ### Specification-level tokenization (for the parser claims)

`specTokens m l` lists the maximal runs of ordinary bytes of `l`, each
labelled with the most recent control character seen before the run begins
(`m` before the first control character; the C scan starts with `token = 0`).
-/

theorem length_dropWhile_le (p : Nat → Bool) (l : List Nat) :
    (l.dropWhile p).length ≤ l.length := by
  induction l with
  | nil => simp [List.dropWhile]
  | cons x xs ih =>
      by_cases h : p x
      · simp [List.dropWhile, h]
        omega
      · simp [List.dropWhile, h]

/-- Tokens of the buffer, labelled with the control character governing them. -/
def specTokens (m : Nat) (l : List Nat) : List (Nat × List Nat) :=
  match l with
  | [] => []
  | c :: rest =>
      if isEnd c then specTokens m rest
      else if isCtrl c then specTokens c rest
      else (m, c :: rest.takeWhile notDelim) :: specTokens m (rest.dropWhile notDelim)
termination_by l.length
decreasing_by
  · simp
  · simp
  · simp
    have := length_dropWhile_le notDelim rest
    omega

/-- The argument sequence the specification's split rules predict: the tokens
not governed by a redirect marker, in order. -/
def specArgs (toks : List (Nat × List Nat)) : List (List Nat) :=
  (toks.filter (fun p => !(p.1 == REDIR_IN) && !(p.1 == REDIR_OUT))).map Prod.snd

/-- The redirect target for marker `marker` : the last token governed by that
marker, if any (`init` is the value before these tokens were scanned). -/
def specTarget (marker : Nat) (init : Option (List Nat)) (toks : List (Nat × List Nat)) :
    Option (List Nat) :=
  toks.foldl (fun acc p => if p.1 == marker then some p.2 else acc) init

/-- The scan of `buf` from state `st` agrees with the specification-level
tokenization: arguments are the tokens not governed by a redirect marker,
each redirect target is the last token governed by its marker, and the
background flag records whether a background-marker byte occurred. -/
def ParseAgrees (buf : List Nat) (st : ParseState) : Prop :=
  ((buf.foldl parse_step st).args = st.args ++ specArgs (specTokens st.token buf)) ∧
  ((buf.foldl parse_step st).out = specTarget REDIR_OUT st.out (specTokens st.token buf)) ∧
  ((buf.foldl parse_step st).in_ = specTarget REDIR_IN st.in_ (specTokens st.token buf)) ∧
  ((buf.foldl parse_step st).run_in_bg = true ↔
    (st.run_in_bg = true ∨ RUN_IN_BG ∈ buf))

/-! ### Sample states used to instantiate the theorems on concrete inputs -/

/-- An idle shell: no foreground child, empty registry, interrupt clear. -/
def sampleState : ShellState := { fg_pid := -1, bg_head := [], interrupt := false }

/-- A shell whose registry holds one already-terminated job. -/
def deadJobState : ShellState :=
  { fg_pid := -1, bg_head := [{ running := false, pid := 42 }], interrupt := false }

/-- A shell with a foreground child (pid 7) and two live background jobs. -/
def reaperState : ShellState :=
  { fg_pid := 7,
    bg_head := [{ running := true, pid := 5 }, { running := true, pid := 9 }],
    interrupt := false }

end Shell

namespace Shell

set_option maxRecDepth 100000

/-! ## Theorems -/

/-! ### C1: foreground wait and the ECHILD race -/

theorem fg_wait_loop_clears_fg (waits : List WaitOutcome) :
    ∀ (s : ShellState) (r : Int) (s' : ShellState) (msgs : List String),
      fg_wait_loop s waits = some (r, s', msgs) → s'.fg_pid = -1 := by
  induction waits with
  | nil => intro s r s' msgs h; exact absurd h (by simp [fg_wait_loop])
  | cons w rest ih =>
      intro s r s' msgs h
      cases w with
      | err e =>
          unfold fg_wait_loop at h
          split at h <;> (cases h; rfl)
      | ok exited signaled =>
          unfold fg_wait_loop at h
          split at h
          · cases h; rfl
          · exact ih s r s' msgs h

/-- C1: for a foreground command, a blocking wait that fails with `ECHILD`
(the asynchronous reaper won the race) is treated as a normal foreground
completion — return value 0 and `fg_pid` cleared to the sentinel `-1`; any
other wait failure is reported (`perror("waitpid")`) and returns `-1`; and in
every case in which the foreground launch returns, `fg_pid` is `-1`
afterwards. -/
theorem command_fork_fg_echild_success (c_pid : Int) (s : ShellState)
    (waits : List WaitOutcome) :
    (∀ rest, command_fork_fg c_pid (WaitOutcome.err ECHILD :: rest) s =
      some (0, { s with fg_pid := -1 }, [])) ∧
    (∀ e rest, e ≠ ECHILD → command_fork_fg c_pid (WaitOutcome.err e :: rest) s =
      some (-1, { s with fg_pid := -1 }, ["waitpid"])) ∧
    (∀ r s' msgs, command_fork_fg c_pid waits s = some (r, s', msgs) →
      s'.fg_pid = -1) := by
  refine ⟨?_, ?_, ?_⟩
  · intro rest
    simp [command_fork_fg, fg_wait_loop]
  · intro e rest he
    simp [command_fork_fg, fg_wait_loop, he]
  · intro r s' msgs h
    exact fg_wait_loop_clears_fg waits _ r s' msgs h

theorem command_fork_fg_echild_success_witness :
    command_fork_fg 7 [WaitOutcome.err ECHILD] sampleState =
      some (0, { sampleState with fg_pid := -1 }, []) ∧
    command_fork_fg 7 [WaitOutcome.err 5] sampleState =
      some (-1, { sampleState with fg_pid := -1 }, ["waitpid"]) ∧
    ({ sampleState with fg_pid := -1 } : ShellState).fg_pid = -1 :=
  ⟨(command_fork_fg_echild_success 7 sampleState []).1 [],
   (command_fork_fg_echild_success 7 sampleState []).2.1 5 [] (by decide),
   (command_fork_fg_echild_success 7 sampleState [WaitOutcome.err ECHILD]).2.2 0 _ []
     ((command_fork_fg_echild_success 7 sampleState [WaitOutcome.err ECHILD]).1 [])⟩

/-! ### C2: the exit built-in -/

theorem exit_kills_eq_filter (l : List process_t) :
    exit_kills l = (l.filter (fun p => p.running)).map (fun p => p.pid) := by
  induction l with
  | nil => simp [exit_kills]
  | cons p rest ih =>
      by_cases h : p.running <;> simp [exit_kills, h, ih]

/-- C2 counterexample: with a registry holding the single already-terminated
job `pid 42`, the exit handler signals nobody — the claim's "regardless of its
liveness flag" fails at this input. -/
theorem command_exit_handler_skips_dead :
    ({ running := false, pid := 42 } : process_t) ∈ deadJobState.bg_head ∧
    (42 : Int) ∉ (command_exit_handler deadJobState).2 := by decide

/-- C2 (amended): the exit handler sends `SIGKILL` to exactly the jobs whose
liveness flag is still alive (`running`), leaves the registry empty, and sets
the process-wide interrupt flag. -/
theorem command_exit_handler_spec (s : ShellState) :
    (command_exit_handler s).2 = (s.bg_head.filter (fun p => p.running)).map (fun p => p.pid) ∧
    (command_exit_handler s).1.bg_head = [] ∧
    (command_exit_handler s).1.interrupt = true := by
  refine ⟨?_, rfl, rfl⟩
  exact exit_kills_eq_filter s.bg_head

/-! ### C4: the SIGCHLD reaper -/

theorem mark_terminated_pids (l : List process_t) (c : Int) :
    (mark_terminated l c).map process_t.pid = l.map process_t.pid := by
  induction l with
  | nil => simp [mark_terminated]
  | cons p rest ih =>
      by_cases h : p.pid == c <;> simp [mark_terminated, h, ih]

theorem sig_chld_one_pids (s : ShellState) (c : Int) :
    (sig_chld_one s c).bg_head.map process_t.pid = s.bg_head.map process_t.pid := by
  by_cases h : c == s.fg_pid <;> simp [sig_chld_one, h, mark_terminated_pids]

theorem sig_handler_chld_pids (reaped : List Int) :
    ∀ s : ShellState,
      (sig_handler_chld s reaped).bg_head.map process_t.pid =
        s.bg_head.map process_t.pid := by
  induction reaped with
  | nil => intro s; simp [sig_handler_chld]
  | cons c rest ih =>
      intro s
      have h1 := sig_chld_one_pids s c
      have h2 := ih (sig_chld_one s c)
      simp [sig_handler_chld] at h2 ⊢
      rw [h2, h1]

theorem mark_terminated_split (l1 : List process_t) (j : process_t)
    (l2 : List process_t) (c : Int) (hj : j.pid = c)
    (hl1 : c ∉ l1.map process_t.pid) :
    mark_terminated (l1 ++ j :: l2) c = l1 ++ { j with running := false } :: l2 := by
  induction l1 with
  | nil => simp [mark_terminated, hj]
  | cons p rest ih =>
      simp at hl1
      have h2 : c ∉ List.map process_t.pid rest := by simpa using hl1.2
      have hp : ¬ p.pid = c := fun hc => hl1.1 hc.symm
      simp [mark_terminated, hp, ih h2]

/-- C4: one activation of the `SIGCHLD` handler processes every pid the
draining `waitpid` loop delivers and never removes a job (the registry's pid
sequence is unchanged); a reaped pid equal to the foreground token only clears
the token and leaves the registry untouched; any other reaped pid flips the
matching job's liveness flag to terminated while the job stays in the
registry. -/
theorem sig_handler_spec (s : ShellState) (reaped : List Int) :
    (sig_handler_chld s reaped).bg_head.map process_t.pid =
      s.bg_head.map process_t.pid ∧
    (∀ c, c = s.fg_pid → sig_chld_one s c = { s with fg_pid := -1 }) ∧
    (∀ c l1 j l2, c ≠ s.fg_pid → s.bg_head = l1 ++ j :: l2 → j.pid = c →
      c ∉ l1.map process_t.pid →
      sig_chld_one s c = { s with bg_head := l1 ++ { j with running := false } :: l2 }) := by
  refine ⟨sig_handler_chld_pids reaped s, ?_, ?_⟩
  · intro c hc
    simp [sig_chld_one, hc]
  · intro c l1 j l2 hne hsplit hj hl1
    simp [sig_chld_one, hne, hsplit, mark_terminated_split l1 j l2 c hj hl1]

theorem sig_handler_spec_witness :
    sig_chld_one reaperState 7 = { reaperState with fg_pid := -1 } ∧
    sig_chld_one reaperState 9 =
      { reaperState with
          bg_head := [{ running := true, pid := 5 }, { running := false, pid := 9 }] } :=
  ⟨(sig_handler_spec reaperState []).2.1 7 rfl,
   (sig_handler_spec reaperState []).2.2 9 [{ running := true, pid := 5 }]
     { running := true, pid := 9 } [] (by decide) rfl rfl (by decide)⟩

/-! ### C5: prompt display and finished-notifications -/

theorem prompt_scan_spec (l : List process_t) :
    (prompt_scan l).1 = l.filter (fun p => p.running) ∧
    (prompt_scan l).2 = (l.filter (fun p => !p.running)).map (fun p => finished_msg p.pid) := by
  induction l with
  | nil => simp [prompt_scan]
  | cons p rest ih =>
      by_cases h : p.running <;> simp [prompt_scan, h, ih.1, ih.2]

/-- C5: displaying the prompt prints exactly one `[pid] Finished` notification
for each job whose liveness flag is terminated (in registry order), removes
exactly those jobs, and keeps every still-alive job unchanged; the prompt
string follows the notifications. -/
theorem prompt_show_spec (l : List process_t) :
    (prompt_show l).1 = l.filter (fun p => p.running) ∧
    (prompt_show l).2 =
      ((l.filter (fun p => !p.running)).map (fun p => finished_msg p.pid)) ++ [PROMPT] := by
  have h := prompt_scan_spec l
  exact ⟨h.1, by simp [prompt_show, h.2]⟩

/-! ### C6: oversized input lines -/

theorem drain_line_spec (l1 l2 : List Nat) (h : 10 ∉ l1) :
    drain_line (l1 ++ 10 :: l2) = l2 := by
  induction l1 with
  | nil => simp [drain_line, List.dropWhile]
  | cons x xs ih =>
      simp only [List.mem_cons, not_or] at h
      have hx : (x != 10) = true := by
        simp only [bne_iff_ne, ne_eq]
        exact fun hc => h.1 hc.symm
      have hstep : drain_line ((x :: xs) ++ 10 :: l2) = drain_line (xs ++ 10 :: l2) := by
        simp [drain_line, List.dropWhile_cons, hx]
      rw [hstep]
      exact ih h.2

/-- C6: when `read` delivers more bytes than the fixed maximum, `input_read`
prints the length-exceeded diagnostic, drains standard input up to and
including the next newline (when the read chunk did not already end in one),
and returns failure, so the cycle executes no command. -/
theorem input_read_too_long (bytes stream : List Nat)
    (h : EFFECTIVE_BUFFER_SIZE < bytes.length) (s : ShellState) :
    (input_read (ReadResult.ok bytes) stream).ret = -1 ∧
    (input_read (ReadResult.ok bytes) stream).output = [too_long_msg] ∧
    (∀ l1 l2, bytes.getLast? ≠ some 10 → stream = l1 ++ 10 :: l2 → 10 ∉ l1 →
      (input_read (ReadResult.ok bytes) stream).stream = l2) ∧
    shell_cycle (ReadResult.ok bytes) stream s = (s, ExecEffect.skipped) := by
  refine ⟨?_, ?_, ?_, ?_⟩
  · simp [input_read, h]
  · simp [input_read, h]
  · intro l1 l2 hnl hsplit hl1
    simp [input_read, h, hnl, hsplit, drain_line_spec l1 l2 hl1]
  · simp [shell_cycle, input_read, h]

theorem input_read_too_long_witness :
    (input_read (ReadResult.ok (List.replicate 513 97)) [104, 10, 120]).ret = -1 ∧
    (input_read (ReadResult.ok (List.replicate 513 97)) [104, 10, 120]).stream = [120] :=
  ⟨(input_read_too_long (List.replicate 513 97) [104, 10, 120] (by decide) sampleState).1,
   (input_read_too_long (List.replicate 513 97) [104, 10, 120] (by decide) sampleState).2.2.1
     [104] [120] (by decide) rfl (by decide)⟩

/-! ### C7: end-of-input behaves like `exit` -/

theorem parse_exit_buf :
    command_parse (mkbuf (str CMD_EXIT)) =
      { run_in_bg := false, args := [str CMD_EXIT], out := none, in_ := none } := by decide

/-- C7: a zero-byte read makes `input_read` place the text of the built-in
exit command in the buffer, echo it and return success; the cycle then runs
the exit handler (clearing the registry and setting the interrupt flag), so
both handshake loops stop. -/
theorem input_eof_exits (stream : List Nat) (s : ShellState) :
    input_read (ReadResult.ok []) stream =
      { ret := 0, buffer := mkbuf (str CMD_EXIT), stream := stream,
        output := [CMD_EXIT ++ "\n"] } ∧
    shell_cycle (ReadResult.ok []) stream s =
      ({ s with bg_head := [], interrupt := true }, ExecEffect.exited) ∧
    loop_continues (shell_cycle (ReadResult.ok []) stream s).1 = false := by
  refine ⟨?_, ?_, ?_⟩
  · simp [input_read]
  · simp [shell_cycle, input_read, command_execute, parse_exit_buf, command_exit_handler]
  · simp [shell_cycle, input_read, command_execute, parse_exit_buf, command_exit_handler,
      loop_continues]

/-! ### C8: empty and all-whitespace lines -/

theorem parse_whitespace_fields (buf : List Nat) (h : ∀ c ∈ buf, isEnd c = true) :
    ∀ st : ParseState,
      (buf.foldl parse_step st).args = st.args ∧
      (buf.foldl parse_step st).out = st.out ∧
      (buf.foldl parse_step st).in_ = st.in_ ∧
      (buf.foldl parse_step st).run_in_bg = st.run_in_bg := by
  induction buf with
  | nil => intro st; simp
  | cons c rest ih =>
      intro st
      have hc : isEnd c = true := h c (by simp)
      have hrest : ∀ c ∈ rest, isEnd c = true := fun x hx => h x (by simp [hx])
      have := ih hrest { st with ignore := false }
      simpa [parse_step, hc] using this

/-- C8: a buffer holding only whitespace and NUL bytes parses to an empty
argument sequence, and `command_execute` on it is a no-op returning success —
no process is created, no built-in runs, no error is reported. -/
theorem empty_command_noop (buf : List Nat)
    (h : ∀ c ∈ buf, c_isspace c = true ∨ c = 0) (s : ShellState) :
    (command_parse buf).args = [] ∧
    command_execute buf s = (0, s, ExecEffect.noop) := by
  have hEnd : ∀ c ∈ buf.take EFFECTIVE_BUFFER_SIZE, isEnd c = true := by
    intro c hc
    have := h c (List.take_subset _ _ hc)
    rcases this with h1 | h1 <;> simp [isEnd, h1]
  have hargs : (command_parse buf).args = [] := by
    have := parse_whitespace_fields (buf.take EFFECTIVE_BUFFER_SIZE) hEnd parse_init
    simpa [command_parse, parse_init] using this.1
  refine ⟨hargs, ?_⟩
  simp only [command_execute]
  rw [hargs]

theorem empty_command_noop_witness :
    (command_parse (str "  ")).args = [] ∧
    command_execute (str "  ") sampleState = (0, sampleState, ExecEffect.noop) :=
  empty_command_noop (str "  ") (by decide) sampleState

/-! ### C9: the two concrete parse examples -/

/-- C9: parsing `"echo hi > out.txt"` yields arguments `["echo","hi"]`, output
target `out.txt`, no input target and background flag false; parsing
`"sleep 5 &"` yields arguments `["sleep","5"]` with background flag true and
the background marker itself is not a token. -/
theorem parse_examples :
    command_parse (mkbuf (str "echo hi > out.txt")) =
      { run_in_bg := false, args := [str "echo", str "hi"],
        out := some (str "out.txt"), in_ := none } ∧
    (command_parse (mkbuf (str "sleep 5 &"))).args = [str "sleep", str "5"] ∧
    (command_parse (mkbuf (str "sleep 5 &"))).run_in_bg = true ∧
    str "&" ∉ (command_parse (mkbuf (str "sleep 5 &"))).args ∧
    (command_parse (mkbuf (str "sleep 5 &"))).out = none ∧
    (command_parse (mkbuf (str "sleep 5 &"))).in_ = none := by decide

/-! ### C3 counterexample: the redirect mode persists across tokens -/

/-- C3 counterexample: in `"a > b c"`, the token `c` does not begin
immediately after the output-redirect marker, yet it becomes the final output
target and is not appended to the argument sequence (the `token` mode variable
is never reset), contradicting the claim that every token other than the one
immediately following a marker joins the argument sequence. -/
theorem parse_redirect_mode_persists :
    (command_parse (mkbuf (str "a > b c"))).out = some (str "c") ∧
    (command_parse (mkbuf (str "a > b c"))).out ≠ some (str "b") ∧
    str "c" ∉ (command_parse (mkbuf (str "a > b c"))).args ∧
    (command_parse (mkbuf (str "a > b c"))).args = [str "a"] := by decide

/-! ### C10: the exact maximum line length -/

/-- C10: the fixed maximum is `EFFECTIVE_BUFFER_SIZE = 512` bytes including
the trailing newline; given that `read` can deliver at most the 513-byte
buffer, `input_read` fails with the length-exceeded diagnostic iff the read
delivered all 513 bytes, and every read of 1 to 512 bytes is accepted. -/
theorem input_read_max_length (bytes stream : List Nat)
    (h : bytes.length ≤ BUFFER_SIZE) :
    EFFECTIVE_BUFFER_SIZE = 512 ∧ BUFFER_SIZE = 513 ∧
    (((input_read (ReadResult.ok bytes) stream).ret = -1 ∧
      (input_read (ReadResult.ok bytes) stream).output = [too_long_msg]) ↔
        bytes.length = 513) ∧
    (1 ≤ bytes.length → bytes.length ≤ 512 →
      (input_read (ReadResult.ok bytes) stream).ret = 0) := by
  refine ⟨rfl, rfl, ?_, ?_⟩
  · by_cases hlen : EFFECTIVE_BUFFER_SIZE < bytes.length
    · have h513 : bytes.length = 513 := by
        simp [EFFECTIVE_BUFFER_SIZE] at hlen
        simp [BUFFER_SIZE] at h
        omega
      simp [input_read, h513, EFFECTIVE_BUFFER_SIZE]
    · have hne : bytes.length ≠ 513 := by
        simp [EFFECTIVE_BUFFER_SIZE] at hlen
        omega
      simp only [input_read]
      rw [if_neg hlen]
      by_cases hz : bytes.length == 0
      · simp [hz, hne]
      · by_cases hnl : bytes.getLast? == some 10 <;> simp [hz, hnl, hne]
  · intro h1 h2
    have hlen : ¬ EFFECTIVE_BUFFER_SIZE < bytes.length := by
      simp [EFFECTIVE_BUFFER_SIZE]
      omega
    simp only [input_read]
    rw [if_neg hlen]
    by_cases hz : bytes.length == 0
    · simp [hz]
    · by_cases hnl : bytes.getLast? == some 10 <;> simp [hz, hnl]

theorem input_read_max_length_witness :
    (input_read (ReadResult.ok (List.replicate 513 97)) []).ret = -1 ∧
    (input_read (ReadResult.ok (List.replicate 513 97)) []).output = [too_long_msg] :=
  (input_read_max_length (List.replicate 513 97) [] (by decide)).2.2.1.mpr (by decide)

/-! ### C3 amended: full characterization of the scan's token roles -/

theorem notDelim_end (c : Nat) (h : notDelim c = true) : isEnd c = false := by
  cases hE : isEnd c
  · rfl
  · simp [notDelim, hE] at h

theorem notDelim_ctrl (c : Nat) (h : notDelim c = true) : isCtrl c = false := by
  cases hC : isCtrl c
  · rfl
  · simp [notDelim, hC] at h

theorem notDelim_of_not_delim (c : Nat) (hE : isEnd c = false) (hC : isCtrl c = false) :
    notDelim c = true := by
  simp [notDelim, hE, hC]

theorem notDelim_ne_amp (c : Nat) (h : notDelim c = true) : c ≠ RUN_IN_BG := by
  have hc := notDelim_ctrl c h
  simp [isCtrl] at hc
  exact hc.1.1

theorem isEnd_ne_amp (c : Nat) (h : isEnd c = true) : c ≠ RUN_IN_BG := by
  simp [isEnd, c_isspace] at h
  simp [RUN_IN_BG]
  rcases h with (h | ⟨h1, h2⟩) | h <;> omega

theorem takeWhile_mem_true (p : Nat → Bool) :
    ∀ (l : List Nat), ∀ c ∈ l.takeWhile p, p c = true := by
  intro l
  induction l with
  | nil => simp [List.takeWhile]
  | cons x xs ih =>
      intro c hc
      by_cases hx : p x = true
      · rw [List.takeWhile_cons, if_pos hx] at hc
        rcases List.mem_cons.1 hc with h | h
        · subst h; exact hx
        · exact ih c h
      · rw [List.takeWhile_cons, if_neg hx] at hc
        simp at hc

theorem dropWhile_head_false (p : Nat → Bool) :
    ∀ (l : List Nat) (x : Nat) (xs : List Nat), l.dropWhile p = x :: xs → p x = false := by
  intro l
  induction l with
  | nil => intro x xs h; simp [List.dropWhile] at h
  | cons y ys ih =>
      intro x xs h
      by_cases hy : p y = true
      · rw [List.dropWhile_cons, if_pos hy] at h
        exact ih x xs h
      · rw [List.dropWhile_cons, if_neg hy] at h
        cases h
        simpa using hy

theorem appendLast_snoc (pre : List (List Nat)) (t : List Nat) (c : Nat) :
    appendLast (pre ++ [t]) c = pre ++ [t ++ [c]] := by
  induction pre with
  | nil => rfl
  | cons p pre' ih =>
      cases pre' with
      | nil => rfl
      | cons q rest => simp [appendLast] at ih ⊢; exact ih

theorem foldl_extend_args (xs : List Nat) (hxs : ∀ c ∈ xs, notDelim c = true) :
    ∀ (st : ParseState) (pre : List (List Nat)) (t : List Nat),
      st.ignore = true → st.dest = Dest.args → st.args = pre ++ [t] →
      xs.foldl parse_step st = { st with args := pre ++ [t ++ xs] } := by
  induction xs with
  | nil =>
      intro st pre t h1 h2 h3
      simp only [List.foldl_nil, List.append_nil]
      rw [← h3]
  | cons x xs' ih =>
      intro st pre t h1 h2 h3
      have hx := hxs x (by simp)
      have hxs' : ∀ c ∈ xs', notDelim c = true := fun c hc => hxs c (by simp [hc])
      have hstep : parse_step st x = { st with args := pre ++ [t ++ [x]] } := by
        simp [parse_step, notDelim_end x hx, notDelim_ctrl x hx, h1, h2, h3, appendLast_snoc]
      rw [List.foldl_cons, hstep,
        ih hxs' { st with args := pre ++ [t ++ [x]] } pre (t ++ [x]) h1 h2 rfl]
      simp

theorem foldl_extend_out (xs : List Nat) (hxs : ∀ c ∈ xs, notDelim c = true) :
    ∀ (st : ParseState) (t : List Nat),
      st.ignore = true → st.dest = Dest.out → st.out = some t →
      xs.foldl parse_step st = { st with out := some (t ++ xs) } := by
  induction xs with
  | nil =>
      intro st t h1 h2 h3
      simp only [List.foldl_nil, List.append_nil]
      rw [← h3]
  | cons x xs' ih =>
      intro st t h1 h2 h3
      have hx := hxs x (by simp)
      have hxs' : ∀ c ∈ xs', notDelim c = true := fun c hc => hxs c (by simp [hc])
      have hstep : parse_step st x = { st with out := some (t ++ [x]) } := by
        simp [parse_step, notDelim_end x hx, notDelim_ctrl x hx, h1, h2, h3]
      rw [List.foldl_cons, hstep,
        ih hxs' { st with out := some (t ++ [x]) } (t ++ [x]) h1 h2 rfl]
      simp

theorem foldl_extend_in (xs : List Nat) (hxs : ∀ c ∈ xs, notDelim c = true) :
    ∀ (st : ParseState) (t : List Nat),
      st.ignore = true → st.dest = Dest.in_ → st.in_ = some t →
      xs.foldl parse_step st = { st with in_ := some (t ++ xs) } := by
  induction xs with
  | nil =>
      intro st t h1 h2 h3
      simp only [List.foldl_nil, List.append_nil]
      rw [← h3]
  | cons x xs' ih =>
      intro st t h1 h2 h3
      have hx := hxs x (by simp)
      have hxs' : ∀ c ∈ xs', notDelim c = true := fun c hc => hxs c (by simp [hc])
      have hstep : parse_step st x = { st with in_ := some (t ++ [x]) } := by
        simp [parse_step, notDelim_end x hx, notDelim_ctrl x hx, h1, h2, h3]
      rw [List.foldl_cons, hstep,
        ih hxs' { st with in_ := some (t ++ [x]) } (t ++ [x]) h1 h2 rfl]
      simp

theorem set_ignore_false (st : ParseState) (h : st.ignore = false) :
    ({ st with ignore := false } : ParseState) = st := by
  cases st
  simp_all

theorem specArgs_cons (m : Nat) (t : List Nat) (toks : List (Nat × List Nat)) :
    specArgs ((m, t) :: toks) =
      if (m == REDIR_IN) || (m == REDIR_OUT) then specArgs toks
      else t :: specArgs toks := by
  by_cases h1 : m == REDIR_IN
  · simp [specArgs, List.filter, h1]
  · by_cases h2 : m == REDIR_OUT <;> simp [specArgs, List.filter, h1, h2]

theorem specTarget_cons (marker m : Nat) (t : List Nat) (i : Option (List Nat))
    (toks : List (Nat × List Nat)) :
    specTarget marker i ((m, t) :: toks) =
      specTarget marker (if m == marker then some t else i) toks := rfl

theorem amp_mem_dropWhile (l : List Nat) :
    (RUN_IN_BG ∈ l) ↔ RUN_IN_BG ∈ l.dropWhile notDelim := by
  have hT : RUN_IN_BG ∉ l.takeWhile notDelim := fun hm =>
    notDelim_ne_amp _ (takeWhile_mem_true notDelim l _ hm) rfl
  constructor
  · intro h
    rw [← List.takeWhile_append_dropWhile notDelim l] at h
    rcases List.mem_append.1 h with h | h
    · exact absurd h hT
    · exact h
  · intro h
    rw [← List.takeWhile_append_dropWhile notDelim l]
    exact List.mem_append.2 (Or.inr h)

theorem parse_fold_delims (n : Nat)
    (ihn : ∀ buf : List Nat, buf.length ≤ n → ∀ st : ParseState,
      st.ignore = false → ParseAgrees buf st) :
    ∀ (D : List Nat) (st2 : ParseState), D.length ≤ n + 1 →
      (D = [] ∨ ∃ d rest2, D = d :: rest2 ∧ notDelim d = false) →
      ParseAgrees D st2 := by
  intro D st2 hlen hshape
  rcases hshape with rfl | ⟨d, rest2, rfl, hdf⟩
  · simp [ParseAgrees, specTokens, specArgs, specTarget]
  · have hlen2 : rest2.length ≤ n := by simp at hlen; omega
    by_cases hdE : isEnd d = true
    · have hstep : parse_step st2 d = { st2 with ignore := false } := by
        simp [parse_step, hdE]
      have hrest := ihn rest2 hlen2 { st2 with ignore := false } rfl
      have htoks : specTokens st2.token (d :: rest2) = specTokens st2.token rest2 := by
        simp [specTokens, hdE]
      have hne : ¬ (RUN_IN_BG = d) := fun h => isEnd_ne_amp d hdE h.symm
      unfold ParseAgrees at hrest ⊢
      rw [List.foldl_cons, hstep, htoks]
      refine ⟨hrest.1, hrest.2.1, hrest.2.2.1, ?_⟩
      rw [hrest.2.2.2]
      simp [List.mem_cons, hne]
    · have hdEf : isEnd d = false := by simpa using hdE
      have hdC : isCtrl d = true := by
        cases h : isCtrl d
        · exact absurd (notDelim_of_not_delim d hdEf h) (by simp [hdf])
        · rfl
      have hstep : parse_step st2 d =
          { st2 with run_in_bg := if d == RUN_IN_BG then true else st2.run_in_bg,
                     token := d, ignore := false } := by
        simp [parse_step, hdEf, hdC]
      have hrest := ihn rest2 hlen2
        { st2 with run_in_bg := if d == RUN_IN_BG then true else st2.run_in_bg,
                   token := d, ignore := false } rfl
      have htoks : specTokens st2.token (d :: rest2) = specTokens d rest2 := by
        simp [specTokens, hdEf, hdC]
      unfold ParseAgrees at hrest ⊢
      rw [List.foldl_cons, hstep, htoks]
      refine ⟨hrest.1, hrest.2.1, hrest.2.2.1, ?_⟩
      rw [hrest.2.2.2]
      by_cases hamp : d = RUN_IN_BG
      · subst hamp; simp
      · have h1 : (d == RUN_IN_BG) = false := by simp [hamp]
        have h2 : ¬ (RUN_IN_BG = d) := fun h => hamp h.symm
        simp [h1, h2, List.mem_cons]

theorem parse_fold_spec :
    ∀ (n : Nat) (buf : List Nat), buf.length ≤ n →
      ∀ st : ParseState, st.ignore = false → ParseAgrees buf st := by
  intro n
  induction n with
  | zero =>
      intro buf hlen st hig
      have hb : buf = [] := List.length_eq_zero.mp (Nat.le_zero.mp hlen)
      subst hb
      simp [ParseAgrees, specTokens, specArgs, specTarget]
  | succ n ih =>
      intro buf hlen st hig
      cases buf with
      | nil => simp [ParseAgrees, specTokens, specArgs, specTarget]
      | cons c rest =>
          have hlen' : rest.length ≤ n := by simp at hlen; omega
          by_cases hE : isEnd c = true
          · have hstep : parse_step st c = st := by
              have h1 : parse_step st c = { st with ignore := false } := by
                simp [parse_step, hE]
              rw [h1, set_ignore_false st hig]
            have hrest := ih rest hlen' st hig
            have htoks : specTokens st.token (c :: rest) = specTokens st.token rest := by
              simp [specTokens, hE]
            have hne : ¬ (RUN_IN_BG = c) := fun h => isEnd_ne_amp c hE h.symm
            unfold ParseAgrees at hrest ⊢
            rw [List.foldl_cons, hstep, htoks]
            refine ⟨hrest.1, hrest.2.1, hrest.2.2.1, ?_⟩
            rw [hrest.2.2.2]
            simp [List.mem_cons, hne]
          · by_cases hC : isCtrl c = true
            · have hEf : isEnd c = false := by simpa using hE
              have hstep : parse_step st c =
                  { st with run_in_bg := if c == RUN_IN_BG then true else st.run_in_bg,
                            token := c, ignore := false } := by
                simp [parse_step, hEf, hC]
              have hrest := ih rest hlen'
                { st with run_in_bg := if c == RUN_IN_BG then true else st.run_in_bg,
                          token := c, ignore := false } rfl
              have htoks : specTokens st.token (c :: rest) = specTokens c rest := by
                simp [specTokens, hEf, hC]
              unfold ParseAgrees at hrest ⊢
              rw [List.foldl_cons, hstep, htoks]
              refine ⟨hrest.1, hrest.2.1, hrest.2.2.1, ?_⟩
              rw [hrest.2.2.2]
              by_cases hamp : c = RUN_IN_BG
              · subst hamp; simp
              · have h1 : (c == RUN_IN_BG) = false := by simp [hamp]
                have h2 : ¬ (RUN_IN_BG = c) := fun h => hamp h.symm
                simp [h1, h2, List.mem_cons]
            · have hEf : isEnd c = false := by simpa using hE
              have hCf : isCtrl c = false := by simpa using hC
              have hnd : notDelim c = true := notDelim_of_not_delim c hEf hCf
              have hT := takeWhile_mem_true notDelim rest
              have hsplit : rest.takeWhile notDelim ++ rest.dropWhile notDelim = rest :=
                List.takeWhile_append_dropWhile notDelim rest
              have hfold : (c :: rest).foldl parse_step st =
                  (rest.dropWhile notDelim).foldl parse_step
                    ((c :: rest.takeWhile notDelim).foldl parse_step st) := by
                conv_lhs => rw [show (c :: rest) =
                  (c :: rest.takeWhile notDelim) ++ rest.dropWhile notDelim from by
                    rw [List.cons_append, hsplit]]
                rw [List.foldl_append]
              have htoks : specTokens st.token (c :: rest) =
                  (st.token, c :: rest.takeWhile notDelim) ::
                    specTokens st.token (rest.dropWhile notDelim) := by
                simp [specTokens, hEf, hCf]
              have hlenD : (rest.dropWhile notDelim).length ≤ n + 1 := by
                have h1 : (rest.takeWhile notDelim).length +
                    (rest.dropWhile notDelim).length = rest.length := by
                  rw [← List.length_append, hsplit]
                omega
              have hshape : rest.dropWhile notDelim = [] ∨
                  ∃ d rest2, rest.dropWhile notDelim = d :: rest2 ∧ notDelim d = false := by
                cases hDD : rest.dropWhile notDelim with
                | nil => exact Or.inl rfl
                | cons d rest2 =>
                    exact Or.inr ⟨d, rest2, rfl, dropWhile_head_false notDelim rest d rest2 hDD⟩
              have hmem : (RUN_IN_BG ∈ c :: rest) ↔ RUN_IN_BG ∈ rest.dropWhile notDelim := by
                have hne : ¬ (RUN_IN_BG = c) := fun h => notDelim_ne_amp c hnd h.symm
                rw [List.mem_cons, amp_mem_dropWhile rest]
                simp [hne]
              by_cases h60 : (st.token == REDIR_IN) = true
              · have htk : st.token = REDIR_IN := by simpa using h60
                have hstart : parse_step st c =
                    { st with in_ := some [c], ignore := true, dest := Dest.in_ } := by
                  simp [parse_step, hEf, hCf, hig, h60]
                have hscan : (c :: rest.takeWhile notDelim).foldl parse_step st =
                    { st with in_ := some (c :: rest.takeWhile notDelim),
                              ignore := true, dest := Dest.in_ } := by
                  rw [List.foldl_cons, hstart,
                    foldl_extend_in (rest.takeWhile notDelim) hT
                      { st with in_ := some [c], ignore := true, dest := Dest.in_ }
                      [c] rfl rfl rfl]
                  rfl
                have hD := parse_fold_delims n ih (rest.dropWhile notDelim)
                  { st with in_ := some (c :: rest.takeWhile notDelim),
                            ignore := true, dest := Dest.in_ } hlenD hshape
                unfold ParseAgrees at hD ⊢
                rw [hfold, hscan, htoks]
                refine ⟨?_, ?_, ?_, ?_⟩
                · rw [hD.1]
                  simp [specArgs_cons, htk, REDIR_IN]
                · rw [hD.2.1, specTarget_cons]
                  simp [htk, REDIR_IN, REDIR_OUT]
                · rw [hD.2.2.1, specTarget_cons]
                  simp [htk, REDIR_IN]
                · rw [hD.2.2.2, hmem]
              · by_cases h62 : (st.token == REDIR_OUT) = true
                · have htk : st.token = REDIR_OUT := by simpa using h62
                  have h60f : (st.token == REDIR_IN) = false := by simpa using h60
                  have hstart : parse_step st c =
                      { st with out := some [c], ignore := true, dest := Dest.out } := by
                    simp [parse_step, hEf, hCf, hig, h60f, h62]
                  have hscan : (c :: rest.takeWhile notDelim).foldl parse_step st =
                      { st with out := some (c :: rest.takeWhile notDelim),
                                ignore := true, dest := Dest.out } := by
                    rw [List.foldl_cons, hstart,
                      foldl_extend_out (rest.takeWhile notDelim) hT
                        { st with out := some [c], ignore := true, dest := Dest.out }
                        [c] rfl rfl rfl]
                    rfl
                  have hD := parse_fold_delims n ih (rest.dropWhile notDelim)
                    { st with out := some (c :: rest.takeWhile notDelim),
                              ignore := true, dest := Dest.out } hlenD hshape
                  unfold ParseAgrees at hD ⊢
                  rw [hfold, hscan, htoks]
                  refine ⟨?_, ?_, ?_, ?_⟩
                  · rw [hD.1]
                    simp [specArgs_cons, htk, REDIR_OUT]
                  · rw [hD.2.1, specTarget_cons]
                    simp [htk, REDIR_OUT]
                  · rw [hD.2.2.1, specTarget_cons]
                    simp [htk, REDIR_IN, REDIR_OUT]
                  · rw [hD.2.2.2, hmem]
                · have h60f : (st.token == REDIR_IN) = false := by simpa using h60
                  have h62f : (st.token == REDIR_OUT) = false := by simpa using h62
                  have hstart : parse_step st c =
                      { st with args := st.args ++ [[c]],
                                ignore := true, dest := Dest.args } := by
                    simp [parse_step, hEf, hCf, hig, h60f, h62f]
                  have hscan : (c :: rest.takeWhile notDelim).foldl parse_step st =
                      { st with args := st.args ++ [c :: rest.takeWhile notDelim],
                                ignore := true, dest := Dest.args } := by
                    rw [List.foldl_cons, hstart,
                      foldl_extend_args (rest.takeWhile notDelim) hT
                        { st with args := st.args ++ [[c]],
                                  ignore := true, dest := Dest.args }
                        st.args [c] rfl rfl rfl]
                    rfl
                  have hD := parse_fold_delims n ih (rest.dropWhile notDelim)
                    { st with args := st.args ++ [c :: rest.takeWhile notDelim],
                              ignore := true, dest := Dest.args } hlenD hshape
                  unfold ParseAgrees at hD ⊢
                  rw [hfold, hscan, htoks]
                  refine ⟨?_, ?_, ?_, ?_⟩
                  · rw [hD.1]
                    simp [specArgs_cons, h60f, h62f, List.append_assoc]
                  · rw [hD.2.1, specTarget_cons]
                    simp [h62f]
                  · rw [hD.2.2.1, specTarget_cons]
                    simp [h60f]
                  · rw [hD.2.2.2, hmem]

/-- C3 (amended): each token of the scanned buffer gets exactly one role,
decided by the most recent control character before it: a token governed by
the input/output-redirect marker becomes (and, if several, the last one
remains) the input/output-redirect target and is never appended to the
argument sequence; every token governed by no marker or by the background
marker is appended, in order, to the argument sequence; and the background
flag is set iff a background-marker byte occurs among the scanned bytes. -/
theorem command_parse_token_roles (buf : List Nat) :
    (command_parse buf).args =
      specArgs (specTokens 0 (buf.take EFFECTIVE_BUFFER_SIZE)) ∧
    (command_parse buf).out =
      specTarget REDIR_OUT none (specTokens 0 (buf.take EFFECTIVE_BUFFER_SIZE)) ∧
    (command_parse buf).in_ =
      specTarget REDIR_IN none (specTokens 0 (buf.take EFFECTIVE_BUFFER_SIZE)) ∧
    ((command_parse buf).run_in_bg = true ↔
      RUN_IN_BG ∈ buf.take EFFECTIVE_BUFFER_SIZE) := by
  have h := parse_fold_spec (buf.take EFFECTIVE_BUFFER_SIZE).length
    (buf.take EFFECTIVE_BUFFER_SIZE) le_rfl parse_init rfl
  unfold ParseAgrees at h
  refine ⟨?_, ?_, ?_, ?_⟩
  · rw [show (command_parse buf).args =
      ((buf.take EFFECTIVE_BUFFER_SIZE).foldl parse_step parse_init).args from rfl, h.1]
    simp [parse_init]
  · rw [show (command_parse buf).out =
      ((buf.take EFFECTIVE_BUFFER_SIZE).foldl parse_step parse_init).out from rfl, h.2.1]
    rfl
  · rw [show (command_parse buf).in_ =
      ((buf.take EFFECTIVE_BUFFER_SIZE).foldl parse_step parse_init).in_ from rfl, h.2.2.1]
    rfl
  · rw [show (command_parse buf).run_in_bg =
      ((buf.take EFFECTIVE_BUFFER_SIZE).foldl parse_step parse_init).run_in_bg from rfl,
      h.2.2.2]
    simp [parse_init]

end Shell
